import Mathlib

/-!
Shallow embedding of the eload overlay engine (src/lib.rs).

The crate overlays process-environment variables onto a typed configuration
value: it encodes the value into a generic yaml tree, walks the typed value
with a custom serde Serializer that at every non-struct node computes an
underscore-joined upper-cased address, registers it with a call-scoped
ambiguity set, looks the address up in the environment and, on a hit, parses
the text into a fragment and patches the tree in place via find_and_update;
finally the tree is decoded back into the typed value.

Machine integers of the yaml scalar model are represented as Int; the string
helpers are list-of-char based so that all definitions evaluate by kernel
reduction.
-/

/-- Models Rust str::to_uppercase (ASCII, which is all the crate relies on). -/
def to_uppercase (s : String) : String := String.mk (s.data.map Char.toUpper)

/-- Models Vec::join on path segments (String::join with a separator). -/
def join_with (sep : String) : List String → String
  | [] => ""
  | [s] => s
  | s :: rest => s ++ sep ++ join_with sep rest

/-- The generic tree value, mirroring serde_yaml::Value: scalars, sequences
and mappings whose keys are themselves values (so non-string keys are
representable, as they are in serde_yaml). -/
inductive Value where
  | null
  | bool (b : Bool)
  | number (n : Int)
  | str (s : String)
  | seqv (elems : List Value)
  | mapping (entries : List (Value × Value))

/-- The crate's Error enum (src/lib.rs lines 6-16). -/
inductive Error where
  | UnpackError (a b : String)
  | PackError (m : String)
  | Unsupported
  | VarError (m : String)

/-- src/lib.rs to_key_str: upper-cases a string mapping key; `none` models the
`unreachable!` panic on a non-string key. -/
def to_key_str : Value → Option String
  | .str s => some (to_uppercase s)
  | _ => none

mutual

/-- src/lib.rs find_and_update: if the accumulated address `cur` equals
`target`, replace the node with `new_value` and report success; otherwise
recurse into mapping entries only, extending the address with the upper-cased
key; any other node is left alone. `none` models the panic raised by
to_key_str on a non-string key. -/
def find_and_update (value : Value) (cur target : String) (new_value : Value) :
    Option (Value × Bool) :=
  if cur = target then some (new_value, true)
  else
    match value with
    | .mapping entries =>
        match find_and_update_entries entries cur target new_value with
        | none => none
        | some (entries2, found) => some (.mapping entries2, found)
    | v => some (v, false)

/-- The `for (key, mut value) in map` loop body of find_and_update: tries each
entry in order and stops at the first successful replacement. -/
def find_and_update_entries (entries : List (Value × Value)) (cur target : String)
    (new_value : Value) : Option (List (Value × Value) × Bool) :=
  match entries with
  | [] => some ([], false)
  | (key, v) :: rest =>
      match to_key_str key with
      | none => none
      | some k =>
          match find_and_update v (cur ++ "_" ++ k) target new_value with
          | none => none
          | some (v2, true) => some ((key, v2) :: rest, true)
          | some (v2, false) =>
              match find_and_update_entries rest cur target new_value with
              | none => none
              | some (rest2, found) => some ((key, v2) :: rest2, found)

end

/-- Result of one std::env::var call: Ok(text), Err(NotPresent), or any other
failure such as Err(NotUnicode). -/
inductive VarResult where
  | present (val : String)
  | notPresent
  | failed (msg : String)

/-- The process environment, as the lookup function the crate consults. -/
def EnvSource : Type := String → VarResult

/-- Removes leading and trailing spaces. -/
def trim_spaces (cs : List Char) : List Char :=
  ((cs.dropWhile (fun c => c = ' ')).reverse.dropWhile (fun c => c = ' ')).reverse

/-- Splits on a separator character (like String::splitOn). -/
def split_on_char (sep : Char) : List Char → List (List Char)
  | [] => [[]]
  | c :: rest =>
      let r := split_on_char sep rest
      if c = sep then [] :: r
      else
        match r with
        | hd :: tl => (c :: hd) :: tl
        | [] => [[c]]

/-- Reads a decimal natural number; `none` on a non-digit or empty input. -/
def digits_to_nat (cs : List Char) : Option Nat :=
  match cs with
  | [] => none
  | _ => go cs 0
where go : List Char → Nat → Option Nat
  | [], acc => some acc
  | c :: rest, acc =>
      if c.toNat ≥ 48 ∧ c.toNat ≤ 57 then go rest (acc * 10 + (c.toNat - 48))
      else none

/-- Modelled from the spec: the scalar-literal coercion of the generic-value
library (spec section 6): `~` or empty is null, `true`/`false` are booleans,
decimal integers are numbers, anything else is a plain string. -/
def parse_scalar (cs : List Char) : Value :=
  let cs := trim_spaces cs
  if cs = [] ∨ cs = ['~'] then .null
  else if cs = "true".data then .bool true
  else if cs = "false".data then .bool false
  else
    match cs with
    | '-' :: ds =>
        match digits_to_nat ds with
        | some n => .number (-(n : Int))
        | none => .str (String.mk cs)
    | ds =>
        match digits_to_nat ds with
        | some n => .number (n : Int)
        | none => .str (String.mk cs)

/-- Parses one `key: value` pair of a flow mapping. -/
def parse_entry (cs : List Char) : Option (Value × Value) :=
  match split_on_char ':' cs with
  | [k, v] => some (parse_scalar k, parse_scalar v)
  | _ => none

/-- Parses the comma-separated pairs of a flow mapping. -/
def parse_entry_list : List (List Char) → Option (List (Value × Value))
  | [] => some []
  | e :: rest =>
      match parse_entry e, parse_entry_list rest with
      | some kv, some kvs => some (kv :: kvs)
      | _, _ => none

/-- Modelled from the spec: serde_yaml::from_str on an override fragment
(spec section 6 value grammar): bare scalars, flow sequences `[a, b, c]` and
flow mappings; a malformed flow literal is a parse error, which is the
fragment-parse failure path of the crate. -/
def from_str (s : String) : Except String Value :=
  let cs := trim_spaces s.data
  match cs with
  | [] => .ok .null
  | c :: rest =>
      if c = '[' then
        if rest.getLast? = some ']' then
          let inner := rest.dropLast
          if trim_spaces inner = [] then .ok (.seqv [])
          else .ok (.seqv ((split_on_char ',' inner).map parse_scalar))
        else .error ("invalid flow sequence: " ++ s)
      else if c = Char.ofNat 123 then
        if rest.getLast? = some (Char.ofNat 125) then
          let inner := rest.dropLast
          if trim_spaces inner = [] then .ok (.mapping [])
          else
            match parse_entry_list (split_on_char ',' inner) with
            | some es => .ok (.mapping es)
            | none => .error ("invalid flow mapping: " ++ s)
        else .error ("invalid flow mapping: " ++ s)
      else .ok (parse_scalar cs)

/-- src/lib.rs Serializer state: the current path stack (segment zero is the
upper-cased prefix), the call-scoped set of visited addresses (HashSet,
modelled as an insertion-ordered duplicate-free list), the baseline tree being
patched in place, and the ambiguity warnings emitted so far (the warn! sink,
recording the ambiguous address). -/
structure Serializer where
  curpath : List String
  paths : List String
  value : Value
  warnings : List String

/-- src/lib.rs Serializer::new. -/
def Serializer.new (pfx : String) (value : Value) : Serializer :=
  { curpath := [to_uppercase pfx], paths := [], value := value, warnings := [] }

/-- src/lib.rs Serializer::enter: push an upper-cased segment. -/
def Serializer.enter (s : Serializer) (name : String) : Serializer :=
  { s with curpath := s.curpath ++ [to_uppercase name] }

/-- src/lib.rs Serializer::exit: pop the most recent segment. -/
def Serializer.exit (s : Serializer) : Serializer :=
  { s with curpath := s.curpath.dropLast }

/-- src/lib.rs Serializer::path: join all segments with an underscore. -/
def Serializer.path (s : Serializer) : String :=
  join_with "_" s.curpath

/-- Lines 96-98 of Serializer::load: insert the current address into the
call-scoped set; on a repeat, emit the ambiguity warning instead. -/
def Serializer.observe (s : Serializer) : Serializer :=
  if Serializer.path s ∈ s.paths then { s with warnings := s.warnings ++ [Serializer.path s] }
  else { s with paths := s.paths ++ [Serializer.path s] }

/-- Outcome of a fallible step of the walk: `panicked` models a Rust panic
(the unreachable! reached through to_key_str), which is distinct from
returning an Error. -/
inductive WalkRes (α : Type) where
  | ok (a : α)
  | err (e : Error)
  | panicked (msg : String)

/-- src/lib.rs Serializer::load, the overlay check performed at every
non-struct node: register the address, look it up in the environment; on a
hit substitute `~` for empty text, parse the fragment and patch the tree
(the returned bool of find_and_update is discarded); absence is a no-op; any
other lookup failure is a VarError. -/
def Serializer.load (env : EnvSource) (s : Serializer) : WalkRes Serializer :=
  let path := Serializer.path s
  let s2 := Serializer.observe s
  match env path with
  | .present val =>
      let val2 := if val = "" then "~" else val
      match from_str val2 with
      | .error e => .err (.PackError e)
      | .ok frag =>
          let target := Serializer.path s2
          -- curpath always holds the prefix at index zero during a walk, so
          -- Rust's curpath[0] is modelled with headD
          let pfx := s2.curpath.headD ""
          match find_and_update s2.value pfx target frag with
          | none => .panicked "Key must be string"
          | some (value2, _) => .ok { s2 with value := value2 }
  | .notPresent => .ok s2
  | .failed e => .err (.VarError e)

/-- The typed value as the custom Serializer sees it. `leaf` is any node that
is not a struct — scalar, optional, sequence, map, tuple, unit or enum
variant — carrying its encoding into the generic tree: every such
serialize_* method performs exactly one Serializer::load and never visits
children (SerializeSeq/SerializeTuple/SerializeMap/SerializeStructVariant
element methods are no-ops). `record` is a struct with named fields in
declaration order: serialize_struct performs no load and
SerializeStruct::serialize_field recurses into each field between enter and
exit. -/
inductive TVal where
  | leaf (enc : Value)
  | record (fields : List (String × TVal))

mutual

/-- The structural walk `t.serialize(&mut ser)` under the custom Serializer. -/
def walk (env : EnvSource) (t : TVal) (s : Serializer) : WalkRes Serializer :=
  match t with
  | .leaf _ => Serializer.load env s
  | .record fields => walkFields env fields s

/-- SerializeStruct::serialize_field applied to each field in order: enter the
field name, walk the field value, exit; an error aborts the remaining
fields. -/
def walkFields (env : EnvSource) (fields : List (String × TVal)) (s : Serializer) :
    WalkRes Serializer :=
  match fields with
  | [] => .ok s
  | (key, v) :: rest =>
      match walk env v (Serializer.enter s key) with
      | .ok s2 => walkFields env rest (Serializer.exit s2)
      | .err e => .err e
      | .panicked m => .panicked m

end

mutual

/-- Modelled from the spec: serde_yaml::to_value — the baseline encoding of
the typed value into the generic tree; a struct becomes a mapping whose keys
are the original-case field names as strings, in declaration order. -/
def encode : TVal → Value
  | .leaf enc => enc
  | .record fields => .mapping (encodeFields fields)

/-- Encodes the fields of a record in order. -/
def encodeFields : List (String × TVal) → List (Value × Value)
  | [] => []
  | (key, v) :: rest => (.str key, encode v) :: encodeFields rest

end

/-- The static shape of a typed value, directing the final decode. -/
inductive TShape where
  | leaf
  | record (fields : List (String × TShape))

mutual

/-- The shape of a typed value. -/
def shapeOf : TVal → TShape
  | .leaf _ => .leaf
  | .record fields => .record (shapeOfFields fields)

/-- The shapes of a record's fields. -/
def shapeOfFields : List (String × TVal) → List (String × TShape)
  | [] => []
  | (key, v) :: rest => (key, shapeOf v) :: shapeOfFields rest

end

mutual

/-- Modelled from the spec: serde_yaml::from_value — the shape-directed decode
back into the typed value; a struct decodes from a mapping carrying exactly
its field names as string keys in declaration order (the collaborator
contract guarantees preserved key order), any value decodes into a leaf, and
an incompatible shape is a decode failure. -/
def decode : TShape → Value → Option TVal
  | .leaf, v => some (.leaf v)
  | .record shapes, .mapping entries =>
      match decodeFields shapes entries with
      | some fs => some (.record fs)
      | none => none
  | .record _, _ => none

/-- Decodes the entries of a mapping against the field shapes, in order. -/
def decodeFields : List (String × TShape) → List (Value × Value) →
    Option (List (String × TVal))
  | [], [] => some []
  | (name, sh) :: shapes, (k, v) :: entries =>
      match k with
      | .str ks =>
          if ks = name then
            match decode sh v, decodeFields shapes entries with
            | some tv, some rest => some ((name, tv) :: rest)
            | _, _ => none
          else none
      | _ => none
  | _, _ => none

end

/-- src/lib.rs load: encode the typed value into the baseline tree, run the
walk over the typed value patching the tree in place, and decode the possibly
mutated tree; any error is returned instead, and the mutated tree is
discarded with the Serializer. -/
def load (env : EnvSource) (pfx : String) (t : TVal) : WalkRes TVal :=
  match walk env t (Serializer.new pfx (encode t)) with
  | .ok s =>
      match decode (shapeOf t) s.value with
      | some t2 => .ok t2
      | none => .err (.PackError "from_value")
  | .err e => .err e
  | .panicked m => .panicked m

mutual

/-- The address at which each non-struct node of the typed value is
overlay-checked, in traversal order: one address per leaf node, none for a
record node itself, whose fields extend the running path with their
upper-cased name. -/
def checkAddrs : TVal → List String → List String
  | .leaf _, cur => [join_with "_" cur]
  | .record fields, cur => checkAddrsFields fields cur

/-- The overlay-check addresses of a record's fields, in declaration order. -/
def checkAddrsFields : List (String × TVal) → List String → List String
  | [], _ => []
  | (key, v) :: rest, cur =>
      checkAddrs v (cur ++ [to_uppercase key]) ++ checkAddrsFields rest cur

end

/-- One step of the ambiguity tracker on a (visited set, warnings) pair:
a repeated address only emits a warning, a fresh one is recorded. -/
def observeAddr : List String × List String → String → List String × List String
  | (paths, warns), a =>
      if a ∈ paths then (paths, warns ++ [a]) else (paths ++ [a], warns)

/-- Folds the ambiguity tracker over a list of addresses in order. -/
def observeAll : List String × List String → List String → List String × List String
  | pw, [] => pw
  | pw, a :: rest => observeAll (observeAddr pw a) rest

/-- Spec-side total key conversion: the upper-cased key text for a string key
(never consulted on other keys under the string-key invariant). -/
def specKey : Value → String
  | .str s => to_uppercase s
  | _ => ""

mutual

/-- The addresses of all tree nodes reachable by the Tree Patcher, in
depth-first pre-order: the node's own recomputed address first, then — for a
mapping only — the addresses reachable through each entry in order. -/
def preAddrs : Value → String → List String
  | .mapping entries, cur => cur :: preAddrsEntries entries cur
  | _, cur => [cur]

/-- The reachable addresses below a mapping's entries, in entry order. -/
def preAddrsEntries : List (Value × Value) → String → List String
  | [], _ => []
  | (key, v) :: rest, cur =>
      preAddrs v (cur ++ "_" ++ specKey key) ++ preAddrsEntries rest cur

end

mutual

/-- Decides the data-model contract that every mapping node of a tree has
only string keys. -/
def strKeys : Value → Bool
  | .mapping entries => strKeysEntries entries
  | .seqv elems => strKeysSeq elems
  | _ => true

/-- String-key contract for the elements of a sequence. -/
def strKeysSeq : List Value → Bool
  | [] => true
  | v :: rest => strKeys v && strKeysSeq rest

/-- String-key contract for the entries of a mapping. -/
def strKeysEntries : List (Value × Value) → Bool
  | [] => true
  | (key, v) :: rest =>
      (match key with | .str _ => true | _ => false) && strKeys v && strKeysEntries rest

end

mutual

/-- Spec-side Tree Patcher, written from the specification text (section 4.4):
if the node's recomputed address equals the target, replace the node and stop;
otherwise recurse only into mapping entries, extending the address with the
upper-cased key before descending, depth-first with the first match winning;
Scalar and Sequence nodes are opaque leaves. Returns the new tree and whether
a replacement occurred. -/
def specPatch (tree : Value) (addr target : String) (replacement : Value) :
    Value × Bool :=
  if addr = target then (replacement, true)
  else
    match tree with
    | .mapping entries =>
        let (entries2, found) := specPatchEntries entries addr target replacement
        (.mapping entries2, found)
    | other => (other, false)

/-- Spec-side patch of a mapping's entries: the first entry whose subtree
contains the target is patched and the search stops there. -/
def specPatchEntries (entries : List (Value × Value)) (addr target : String)
    (replacement : Value) : List (Value × Value) × Bool :=
  match entries with
  | [] => ([], false)
  | (key, v) :: rest =>
      let (v2, found) := specPatch v (addr ++ "_" ++ specKey key) target replacement
      if found then ((key, v2) :: rest, true)
      else
        let (rest2, found2) := specPatchEntries rest addr target replacement
        ((key, v2) :: rest2, found2)

end

/-- Projects a walk result onto what the caller can observe apart from the
ambiguity bookkeeping: the patched tree and the path stack. -/
def projRes : WalkRes Serializer → WalkRes (Value × List String)
  | .ok s => .ok (s.value, s.curpath)
  | .err e => .err e
  | .panicked m => .panicked m

/-- Replaces the ambiguity-tracker part of a Serializer state. -/
def withTracker (s : Serializer) (pw : List String × List String) : Serializer :=
  { s with paths := pw.1, warnings := pw.2 }

/-- A one-field record whose lookup fails, exercising the abort path. -/
def envFail : EnvSource := fun a => if a = "T_X" then .failed "bad" else .notPresent

/-- One-field record used with envFail. -/
def tC1 : TVal := .record [("x", .leaf (.number 0))]

/-- A small nested record used as a concrete identity-test value. -/
def tC2 : TVal :=
  .record [("a", .leaf (.bool true)), ("b", .record [("c", .leaf (.str "x"))])]

/-- The nested record A of the spec's nested-override test, all fields zero:
A has fields a, b and c, where c is B with fields a, b and c, and B.b is C
with fields a, b and c. -/
def tA : TVal :=
  .record [("a", .leaf (.number 0)), ("b", .leaf (.number 0)),
    ("c", .record [("a", .leaf (.number 0)),
      ("b", .record [("a", .leaf (.number 0)), ("b", .leaf (.number 0)),
        ("c", .leaf (.number 0))]),
      ("c", .leaf (.number 0))])]

/-- The environment of the spec's nested-override test: exactly PFX_B,
PFX_C_A and PFX_C_B_B are set. -/
def envC3 : EnvSource := fun a =>
  if a = "PFX_B" then .present "32"
  else if a = "PFX_C_A" then .present "12"
  else if a = "PFX_C_B_B" then .present "42"
  else .notPresent

/-- A mapping with string keys used as a concrete patcher input. -/
def vC4 : Value :=
  .mapping [(.str "a", .number 1), (.str "b", .seqv [.number 1, .number 2])]

/-- A record with two optional-like string fields, the second of which is
overridden with empty text by envEmpty. -/
def tOpt : TVal := .record [("o1", .leaf (.str "hello")), ("o2", .leaf (.str "world"))]

/-- Environment setting PFX_O2 to empty text. -/
def envEmpty : EnvSource := fun a => if a = "PFX_O2" then .present "" else .notPresent

/-- Environment whose bare PFX variable is present with empty text. -/
def envPresentEmpty : EnvSource := fun a => if a = "PFX" then .present "" else .notPresent

/-- Two unrelated, far-apart fields whose addresses normalize to the same
text: field c of record field a_b, and field b_c of record field a, both
address PFX_A_B_C. -/
def tDup : TVal :=
  .record [("a_b", .record [("c", .leaf (.number 0))]),
    ("a", .record [("b_c", .leaf (.number 1))])]

/-- Environment with a single bare-prefix variable P set to 42. -/
def envP : EnvSource := fun a => if a = "P" then .present "42" else .notPresent

theorem withTracker_curpath (s : Serializer) (pw : List String × List String) :
    (withTracker s pw).curpath = s.curpath := rfl

theorem withTracker_value (s : Serializer) (pw : List String × List String) :
    (withTracker s pw).value = s.value := rfl

theorem withTracker_self (s : Serializer) : withTracker s (s.paths, s.warnings) = s := rfl

theorem withTracker_withTracker (s : Serializer) (pw1 pw2 : List String × List String) :
    withTracker (withTracker s pw1) pw2 = withTracker s pw2 := rfl

theorem enter_curpath (s : Serializer) (key : String) :
    (Serializer.enter s key).curpath = s.curpath ++ [to_uppercase key] := rfl

theorem exit_enter_withTracker (s : Serializer) (key : String)
    (pw : List String × List String) :
    Serializer.exit (withTracker (Serializer.enter s key) pw) = withTracker s pw := by
  simp [Serializer.exit, Serializer.enter, withTracker]

theorem observe_eq (s : Serializer) :
    Serializer.observe s =
      withTracker s (observeAddr (s.paths, s.warnings) (Serializer.path s)) := by
  unfold Serializer.observe observeAddr withTracker
  by_cases hm : Serializer.path s ∈ s.paths <;> simp [hm]

theorem walkFields_cons_ok (env : EnvSource) (key : String) (v : TVal)
    (rest : List (String × TVal)) (s s2 : Serializer)
    (h : walk env v (Serializer.enter s key) = .ok s2) :
    walkFields env ((key, v) :: rest) s = walkFields env rest (Serializer.exit s2) := by
  rw [walkFields, h]

theorem observeAll_append (pw : List String × List String) (l1 l2 : List String) :
    observeAll pw (l1 ++ l2) = observeAll (observeAll pw l1) l2 := by
  induction l1 generalizing pw with
  | nil => rfl
  | cons a l ih => simp [observeAll, ih]

theorem load_absent (env : EnvSource) (s : Serializer)
    (h : env (Serializer.path s) = .notPresent) :
    Serializer.load env s = .ok (Serializer.observe s) := by
  simp [Serializer.load, h]

theorem load_failed (env : EnvSource) (s : Serializer) (e : String)
    (h : env (Serializer.path s) = .failed e) :
    Serializer.load env s = .err (.VarError e) := by
  simp [Serializer.load, h]

mutual

theorem walk_absent (env : EnvSource) (t : TVal) :
    ∀ s : Serializer, (∀ a ∈ checkAddrs t s.curpath, env a = .notPresent) →
    walk env t s =
      .ok (withTracker s (observeAll (s.paths, s.warnings) (checkAddrs t s.curpath))) := by
  match t with
  | .leaf enc =>
      intro s h
      have hp : env (Serializer.path s) = .notPresent := h _ (by simp [checkAddrs, Serializer.path])
      rw [walk, load_absent env s hp, observe_eq]
      simp [checkAddrs, observeAll, Serializer.path]
  | .record fields =>
      intro s h
      rw [walk, checkAddrs]
      exact walkFields_absent env fields s (by rw [checkAddrs] at h; exact h)

theorem walkFields_absent (env : EnvSource) (fields : List (String × TVal)) :
    ∀ s : Serializer, (∀ a ∈ checkAddrsFields fields s.curpath, env a = .notPresent) →
    walkFields env fields s =
      .ok (withTracker s (observeAll (s.paths, s.warnings) (checkAddrsFields fields s.curpath))) := by
  match fields with
  | [] =>
      intro s h
      rw [walkFields, checkAddrsFields]
      rfl
  | (key, v) :: rest =>
      intro s h
      have hsplit : ∀ a, (a ∈ checkAddrs v (s.curpath ++ [to_uppercase key]) ∨
          a ∈ checkAddrsFields rest s.curpath) → env a = .notPresent := by
        intro a ha
        apply h
        rw [checkAddrsFields]
        exact List.mem_append.mpr ha
      have h1 : ∀ a ∈ checkAddrs v (Serializer.enter s key).curpath, env a = .notPresent := by
        intro a ha
        exact hsplit a (Or.inl (by rw [enter_curpath] at ha; exact ha))
      set pw1 := observeAll (s.paths, s.warnings)
        (checkAddrs v (s.curpath ++ [to_uppercase key])) with hpw1
      have hwv : walk env v (Serializer.enter s key) =
          .ok (withTracker (Serializer.enter s key) pw1) := by
        rw [walk_absent env v (Serializer.enter s key) h1]
        rfl
      rw [walkFields_cons_ok env key v rest s _ hwv, exit_enter_withTracker]
      have h2 : ∀ a ∈ checkAddrsFields rest (withTracker s pw1).curpath, env a = .notPresent := by
        intro a ha
        rw [withTracker_curpath] at ha
        exact hsplit a (Or.inr ha)
      rw [walkFields_absent env rest (withTracker s pw1) h2]
      rw [checkAddrsFields, observeAll_append]
      rfl

end

mutual

theorem decode_encode (t : TVal) : decode (shapeOf t) (encode t) = some t := by
  match t with
  | .leaf enc => rfl
  | .record fields =>
      simp [shapeOf, encode, decode, decodeFields_encodeFields fields]

theorem decodeFields_encodeFields (fields : List (String × TVal)) :
    decodeFields (shapeOfFields fields) (encodeFields fields) = some fields := by
  match fields with
  | [] => rfl
  | (key, v) :: rest =>
      simp [shapeOfFields, encodeFields, decodeFields, decode_encode v,
        decodeFields_encodeFields rest]

end

theorem observe_value (s : Serializer) : (Serializer.observe s).value = s.value := by
  unfold Serializer.observe
  split <;> rfl

theorem observe_curpath (s : Serializer) : (Serializer.observe s).curpath = s.curpath := by
  unfold Serializer.observe
  split <;> rfl

theorem path_observe (s : Serializer) :
    Serializer.path (Serializer.observe s) = Serializer.path s := by
  unfold Serializer.path
  rw [observe_curpath]

theorem exit_value (s : Serializer) : (Serializer.exit s).value = s.value := rfl

theorem exit_curpath (s : Serializer) : (Serializer.exit s).curpath = s.curpath.dropLast := rfl

theorem projRes_eq_err (r : WalkRes Serializer) (e : Error) :
    projRes r = .err e ↔ r = .err e := by
  cases r <;> simp [projRes]

theorem projRes_eq_panicked (r : WalkRes Serializer) (m : String) :
    projRes r = .panicked m ↔ r = .panicked m := by
  cases r <;> simp [projRes]

theorem projRes_eq_ok (r : WalkRes Serializer) (p : Value × List String) :
    projRes r = .ok p ↔ ∃ s, r = .ok s ∧ s.value = p.1 ∧ s.curpath = p.2 := by
  cases r with
  | ok s =>
      simp [projRes]
      constructor
      · intro h
        exact ⟨congrArg Prod.fst h.symm |>.symm, congrArg Prod.snd h.symm |>.symm⟩
      · intro ⟨h1, h2⟩
        rw [h1, h2]
  | err e => simp [projRes]
  | panicked m => simp [projRes]

theorem load_proj_congr (env : EnvSource) (s1 s2 : Serializer)
    (hv : s1.value = s2.value) (hc : s1.curpath = s2.curpath) :
    projRes (Serializer.load env s1) = projRes (Serializer.load env s2) := by
  have hpath : Serializer.path s1 = Serializer.path s2 := by
    unfold Serializer.path
    rw [hc]
  have hov : (Serializer.observe s1).value = (Serializer.observe s2).value := by
    rw [observe_value, observe_value, hv]
  have hoc : (Serializer.observe s1).curpath = (Serializer.observe s2).curpath := by
    rw [observe_curpath, observe_curpath, hc]
  simp only [Serializer.load, hpath]
  cases henv : env (Serializer.path s2) with
  | notPresent =>
      simp [projRes, observe_value, observe_curpath, hv, hc]
  | failed e => rfl
  | present val =>
      simp only []
      cases hfs : from_str (if val = "" then "~" else val) with
      | error e => rfl
      | ok frag =>
          simp only []
          rw [hov, hoc, path_observe, path_observe, hpath]
          cases hfu : find_and_update (Serializer.observe s2).value
              ((Serializer.observe s2).curpath.headD "") (Serializer.path s2) frag with
          | none => rfl
          | some r =>
              cases r with
              | mk v2 found =>
                  simp [projRes, observe_curpath, hc]

mutual

theorem walk_proj_congr (env : EnvSource) (t : TVal) :
    ∀ s1 s2 : Serializer, s1.value = s2.value → s1.curpath = s2.curpath →
    projRes (walk env t s1) = projRes (walk env t s2) := by
  match t with
  | .leaf enc =>
      intro s1 s2 hv hc
      rw [walk, walk]
      exact load_proj_congr env s1 s2 hv hc
  | .record fields =>
      intro s1 s2 hv hc
      rw [walk, walk]
      exact walkFields_proj_congr env fields s1 s2 hv hc

theorem walkFields_proj_congr (env : EnvSource) (fields : List (String × TVal)) :
    ∀ s1 s2 : Serializer, s1.value = s2.value → s1.curpath = s2.curpath →
    projRes (walkFields env fields s1) = projRes (walkFields env fields s2) := by
  match fields with
  | [] =>
      intro s1 s2 hv hc
      rw [walkFields, walkFields]
      simp [projRes, hv, hc]
  | (key, v) :: rest =>
      intro s1 s2 hv hc
      have hstep := walk_proj_congr env v (Serializer.enter s1 key) (Serializer.enter s2 key)
        hv (by rw [enter_curpath, enter_curpath, hc])
      rw [walkFields, walkFields]
      cases h1 : walk env v (Serializer.enter s1 key) with
      | err e =>
          rw [h1, projRes] at hstep
          rw [(projRes_eq_err _ e).mp hstep.symm]
      | panicked m =>
          rw [h1, projRes] at hstep
          rw [(projRes_eq_panicked _ m).mp hstep.symm]
      | ok t1 =>
          rw [h1, projRes] at hstep
          obtain ⟨t2, h2, hval, hcur⟩ := (projRes_eq_ok _ _).mp hstep.symm
          rw [h2]
          exact walkFields_proj_congr env rest (Serializer.exit t1) (Serializer.exit t2)
            (by rw [exit_value, exit_value, hval])
            (by rw [exit_curpath, exit_curpath, hcur])

end

mutual

theorem fu_eq_spec (v : Value) (cur target : String) (nv : Value)
    (h : strKeys v = true) :
    find_and_update v cur target nv = some (specPatch v cur target nv) := by
  by_cases hct : cur = target
  · cases v <;> simp [find_and_update, specPatch, hct]
  · match v with
    | .null => simp [find_and_update, specPatch, hct]
    | .bool b => simp [find_and_update, specPatch, hct]
    | .number n => simp [find_and_update, specPatch, hct]
    | .str s => simp [find_and_update, specPatch, hct]
    | .seqv elems => simp [find_and_update, specPatch, hct]
    | .mapping entries =>
        have he : strKeysEntries entries = true := by simpa [strKeys] using h
        have hrec := fu_entries_eq_spec entries cur target nv he
        simp [find_and_update, specPatch, hct, hrec]

theorem fu_entries_eq_spec (entries : List (Value × Value)) (cur target : String)
    (nv : Value) (h : strKeysEntries entries = true) :
    find_and_update_entries entries cur target nv =
      some (specPatchEntries entries cur target nv) := by
  match entries with
  | [] => rfl
  | (key, v) :: rest =>
      match key with
      | .null => simp [strKeysEntries] at h
      | .bool b => simp [strKeysEntries] at h
      | .number n => simp [strKeysEntries] at h
      | .seqv es => simp [strKeysEntries] at h
      | .mapping ms => simp [strKeysEntries] at h
      | .str ks =>
          have hv : strKeys v = true := by
            simp [strKeysEntries, Bool.and_eq_true] at h
            exact h.1
          have hr : strKeysEntries rest = true := by
            simp [strKeysEntries, Bool.and_eq_true] at h
            exact h.2
          have h1 := fu_eq_spec v (cur ++ "_" ++ to_uppercase ks) target nv hv
          have h2 := fu_entries_eq_spec rest cur target nv hr
          simp only [find_and_update_entries, specPatchEntries, to_key_str, specKey, h1, h2]
          cases hsp : specPatch v (cur ++ "_" ++ to_uppercase ks) target nv with
          | mk v2 found =>
              cases found <;> simp [h2]

end

mutual

theorem specPatch_found_iff (v : Value) (cur target : String) (nv : Value) :
    (specPatch v cur target nv).2 = true ↔ target ∈ preAddrs v cur := by
  by_cases hct : cur = target
  · subst hct
    match v with
    | .null => simp [specPatch, preAddrs]
    | .bool b => simp [specPatch, preAddrs]
    | .number n => simp [specPatch, preAddrs]
    | .str s => simp [specPatch, preAddrs]
    | .seqv elems => simp [specPatch, preAddrs]
    | .mapping entries => simp [specPatch, preAddrs]
  · match v with
    | .null => simp [specPatch, preAddrs, hct, Ne.symm hct]
    | .bool b => simp [specPatch, preAddrs, hct, Ne.symm hct]
    | .number n => simp [specPatch, preAddrs, hct, Ne.symm hct]
    | .str s => simp [specPatch, preAddrs, hct, Ne.symm hct]
    | .seqv elems => simp [specPatch, preAddrs, hct, Ne.symm hct]
    | .mapping entries =>
        have hrec := specPatchEntries_found_iff entries cur target nv
        simp [specPatch, preAddrs, hct, Ne.symm hct, hrec]

theorem specPatchEntries_found_iff (entries : List (Value × Value)) (cur target : String)
    (nv : Value) :
    (specPatchEntries entries cur target nv).2 = true ↔
      target ∈ preAddrsEntries entries cur := by
  match entries with
  | [] => simp [specPatchEntries, preAddrsEntries]
  | (key, v) :: rest =>
      have h1 := specPatch_found_iff v (cur ++ "_" ++ specKey key) target nv
      have h2 := specPatchEntries_found_iff rest cur target nv
      simp only [specPatchEntries, preAddrsEntries]
      cases hsp : specPatch v (cur ++ "_" ++ specKey key) target nv with
      | mk v2 found =>
          rw [hsp] at h1
          cases found with
          | true =>
              simp only at h1
              simp [List.mem_append, ← h1]
          | false =>
              simp only at h1
              simp [List.mem_append, ← h1, h2]

end

mutual

theorem specPatch_unfound (v : Value) (cur target : String) (nv : Value)
    (h : (specPatch v cur target nv).2 = false) :
    (specPatch v cur target nv).1 = v := by
  by_cases hct : cur = target
  · cases v <;> simp [specPatch, hct] at h
  · match v with
    | .null => simp [specPatch, hct]
    | .bool b => simp [specPatch, hct]
    | .number n => simp [specPatch, hct]
    | .str s => simp [specPatch, hct]
    | .seqv elems => simp [specPatch, hct]
    | .mapping entries =>
        have hrec := specPatchEntries_unfound entries cur target nv
        simp only [specPatch, if_neg hct] at h ⊢
        cases hsp : specPatchEntries entries cur target nv with
        | mk e2 f =>
            rw [hsp] at h hrec
            cases f with
            | true => simp at h
            | false =>
                have he : e2 = entries := hrec rfl
                subst he
                rfl

theorem specPatchEntries_unfound (entries : List (Value × Value)) (cur target : String)
    (nv : Value) (h : (specPatchEntries entries cur target nv).2 = false) :
    (specPatchEntries entries cur target nv).1 = entries := by
  match entries with
  | [] => rfl
  | (key, v) :: rest =>
      have h1 := specPatch_unfound v (cur ++ "_" ++ specKey key) target nv
      have h2 := specPatchEntries_unfound rest cur target nv
      simp only [specPatchEntries] at h ⊢
      cases hsp : specPatch v (cur ++ "_" ++ specKey key) target nv with
      | mk v2 found =>
          rw [hsp] at h h1
          cases found with
          | true => simp at h
          | false =>
              simp at h
              have hv2 : v2 = v := h1 rfl
              have hrest : (specPatchEntries rest cur target nv).1 = rest := h2 h
              simp [hv2, hrest, h]

end

/-- C1: Failure atomicity of load: if any step of the structural walk fails
(an environment lookup failure or an override-fragment parse failure), or the
final decode of the patched tree fails, then load returns that error and no
value — in particular no partially-overlaid value — is observable by the
caller; the in-place mutations of the baseline tree die with the Serializer
state, and the caller's input t is untouched since load consumes it only by
value. -/
theorem load_failure_atomicity (env : EnvSource) (pfx : String) (t : TVal)
    (h : (∃ e, walk env t (Serializer.new pfx (encode t)) = .err e) ∨
         (∃ s, walk env t (Serializer.new pfx (encode t)) = .ok s ∧
            decode (shapeOf t) s.value = none)) :
    (∃ e, load env pfx t = .err e) ∧ ∀ t2, load env pfx t ≠ .ok t2 := by
  unfold load
  rcases h with ⟨e, he⟩ | ⟨s, hs, hd⟩
  · rw [he]
    exact ⟨⟨e, rfl⟩, fun t2 hok => WalkRes.noConfusion hok⟩
  · rw [hs]
    simp only [hd]
    exact ⟨⟨.PackError "from_value", rfl⟩, fun t2 hok => WalkRes.noConfusion hok⟩

/-- C1 witness: with the lookup of T_X failing, load of the one-field record
returns an error and never a value. -/
theorem load_failure_atomicity_witness :
    (∃ e, load envFail "t" tC1 = .err e) ∧ ∀ t2, load envFail "t" tC1 ≠ .ok t2 :=
  load_failure_atomicity envFail "t" tC1 (Or.inl ⟨.VarError "bad", rfl⟩)

/-- C2: Identity when no overrides are present: if every address the walk
checks under the prefix's address scheme is absent from the environment, load
succeeds and returns the input value unchanged. -/
theorem load_identity (env : EnvSource) (pfx : String) (t : TVal)
    (h : ∀ a ∈ checkAddrs t [to_uppercase pfx], env a = .notPresent) :
    load env pfx t = .ok t := by
  unfold load
  have hw := walk_absent env t (Serializer.new pfx (encode t)) h
  rw [hw]
  have hv : (Serializer.new pfx (encode t)).value = encode t := rfl
  simp [withTracker_value, hv, decode_encode]

/-- C2 witness: with an empty environment, load returns the nested record
tC2 unchanged. -/
theorem load_identity_witness :
    load (fun _ => VarResult.notPresent) "pfx" tC2 = .ok tC2 :=
  load_identity (fun _ => VarResult.notPresent) "pfx" tC2 (fun _ _ => rfl)

/-- C3: Nested override addressing: on the all-zero nested record A with
exactly PFX_B=32, PFX_C_A=12 and PFX_C_B_B=42 set, load returns the record
with b=32, c.a=12, c.b.b=42 and every other field still 0; and the addresses
the walk checks are exactly the prefix followed by the upper-cased chain of
record field names joined by underscores. -/
theorem nested_override_addressing :
    load envC3 "pfx" tA =
      .ok (.record [("a", .leaf (.number 0)), ("b", .leaf (.number 32)),
        ("c", .record [("a", .leaf (.number 12)),
          ("b", .record [("a", .leaf (.number 0)), ("b", .leaf (.number 42)),
            ("c", .leaf (.number 0))]),
          ("c", .leaf (.number 0))])]) ∧
    checkAddrs tA ["PFX"] =
      ["PFX_A", "PFX_B", "PFX_C_A", "PFX_C_B_A", "PFX_C_B_B", "PFX_C_B_C", "PFX_C_C"] :=
  ⟨rfl, rfl⟩

/-- C4: Tree Patcher semantics: on a tree satisfying the string-key contract,
find_and_update never panics and computes exactly the spec-side patch, which
recurses only into mapping nodes extending the address with each upper-cased
key, replaces the first node (depth-first, pre-order) whose recomputed
address equals the target, and reports whether a replacement occurred; a
replacement occurs iff the target is among the mapping-reachable pre-order
addresses, no replacement leaves the tree unchanged, and a sequence whose own
address misses the target is returned whole and untouched — sequences,
tuples and maps are opaque, replaceable only as a unit. -/
theorem tree_patcher_semantics (v : Value) (cur target : String) (nv : Value)
    (h : strKeys v = true) :
    find_and_update v cur target nv = some (specPatch v cur target nv) ∧
    (∀ r, find_and_update v cur target nv = some r →
      ((r.2 = true ↔ target ∈ preAddrs v cur) ∧ (r.2 = false → r.1 = v))) ∧
    (∀ elems : List Value, cur ≠ target →
      find_and_update (.seqv elems) cur target nv = some (.seqv elems, false)) := by
  refine ⟨fu_eq_spec v cur target nv h, ?_, ?_⟩
  · intro r hr
    rw [fu_eq_spec v cur target nv h] at hr
    injection hr with hr
    subst hr
    exact ⟨specPatch_found_iff v cur target nv, specPatch_unfound v cur target nv⟩
  · intro elems hne
    simp [find_and_update, hne]

/-- C4 witness: the string-keyed mapping vC4 patched at P_B. -/
theorem tree_patcher_semantics_witness :
    strKeys vC4 = true ∧
    (find_and_update vC4 "P" "P_B" (.number 9) =
        some (specPatch vC4 "P" "P_B" (.number 9)) ∧
      (∀ r, find_and_update vC4 "P" "P_B" (.number 9) = some r →
        ((r.2 = true ↔ "P_B" ∈ preAddrs vC4 "P") ∧ (r.2 = false → r.1 = vC4))) ∧
      (∀ elems : List Value, "P" ≠ "P_B" →
        find_and_update (.seqv elems) "P" "P_B" (.number 9) =
          some (.seqv elems, false))) :=
  ⟨rfl, tree_patcher_semantics vC4 "P" "P_B" (.number 9) rfl⟩

/-- C5: Present-but-empty text means null: when the environment holds the
current address with empty text, the overlay check parses the designated null
literal (never the empty literal itself) and patches the tree with the null
fragment; concretely, an optional-like field overridden by an empty variable
comes back as the null (unset) state rather than a parse error. -/
theorem empty_text_means_null (env : EnvSource) (s : Serializer)
    (h : env (Serializer.path s) = .present "") :
    from_str "~" = .ok Value.null ∧
    Serializer.load env s =
      (match find_and_update (Serializer.observe s).value
          ((Serializer.observe s).curpath.headD "") (Serializer.path s) Value.null with
        | none => .panicked "Key must be string"
        | some (value2, _) => .ok { Serializer.observe s with value := value2 }) ∧
    load envEmpty "pfx" tOpt =
      .ok (.record [("o1", .leaf (.str "hello")), ("o2", .leaf .null)]) := by
  refine ⟨rfl, ?_, rfl⟩
  simp only [Serializer.load, h]
  rw [path_observe]
  rfl

/-- C5 witness: applied at a fresh Serializer whose bare address PFX is
present with empty text. -/
theorem empty_text_means_null_witness :
    from_str "~" = .ok Value.null ∧
    Serializer.load envPresentEmpty (Serializer.new "pfx" (.str "x")) =
      (match find_and_update (Serializer.observe (Serializer.new "pfx" (.str "x"))).value
          ((Serializer.observe (Serializer.new "pfx" (.str "x"))).curpath.headD "")
          (Serializer.path (Serializer.new "pfx" (.str "x"))) Value.null with
        | none => .panicked "Key must be string"
        | some (value2, _) =>
            .ok { Serializer.observe (Serializer.new "pfx" (.str "x")) with value := value2 }) ∧
    load envEmpty "pfx" tOpt =
      .ok (.record [("o1", .leaf (.str "hello")), ("o2", .leaf .null)]) :=
  empty_text_means_null envPresentEmpty (Serializer.new "pfx" (.str "x")) rfl

/-- C6: Absent versus failed lookup: an absent variable leaves the overlay
check a no-op apart from tracker bookkeeping — the state, and in particular
the baseline tree, is exactly the observed original; any other lookup failure
turns into a VarError that ends the check, and once a field's walk returns an
error the enclosing field loop returns that same error whatever fields remain
unvisited. -/
theorem absent_vs_failed (env env2 : EnvSource) (s : Serializer) (e : String)
    (habs : env (Serializer.path s) = .notPresent)
    (hfail : env2 (Serializer.path s) = .failed e) :
    Serializer.load env s = .ok (Serializer.observe s) ∧
    (Serializer.observe s).value = s.value ∧
    Serializer.load env2 s = .err (.VarError e) ∧
    (∀ (key : String) (v : TVal) (rest : List (String × TVal)) (s0 : Serializer),
      walk env2 v (Serializer.enter s0 key) = .err (.VarError e) →
      walkFields env2 ((key, v) :: rest) s0 = .err (.VarError e)) := by
  refine ⟨load_absent env s habs, observe_value s, load_failed env2 s e hfail, ?_⟩
  intro key v rest s0 hw
  rw [walkFields, hw]

/-- C6 witness: at a fresh Serializer, with one all-absent and one
all-failing environment. -/
theorem absent_vs_failed_witness :
    Serializer.load (fun _ => VarResult.notPresent) (Serializer.new "pfx" (.number 0)) =
      .ok (Serializer.observe (Serializer.new "pfx" (.number 0))) ∧
    (Serializer.observe (Serializer.new "pfx" (.number 0))).value =
      (Serializer.new "pfx" (.number 0)).value ∧
    Serializer.load (fun _ => VarResult.failed "bad") (Serializer.new "pfx" (.number 0)) =
      .err (.VarError "bad") ∧
    (∀ (key : String) (v : TVal) (rest : List (String × TVal)) (s0 : Serializer),
      walk (fun _ => VarResult.failed "bad") v (Serializer.enter s0 key) =
        .err (.VarError "bad") →
      walkFields (fun _ => VarResult.failed "bad") ((key, v) :: rest) s0 =
        .err (.VarError "bad")) :=
  absent_vs_failed (fun _ => VarResult.notPresent) (fun _ => VarResult.failed "bad")
    (Serializer.new "pfx" (.number 0)) "bad" rfl rfl

theorem load_present_ok (env : EnvSource) (s : Serializer) (val : String) (frag : Value)
    (h : env (Serializer.path s) = .present val)
    (hfs : from_str (if val = "" then "~" else val) = .ok frag) :
    Serializer.load env s =
      (match find_and_update (Serializer.observe s).value
          ((Serializer.observe s).curpath.headD "")
          (Serializer.path (Serializer.observe s)) frag with
        | none => .panicked "Key must be string"
        | some (value2, _) => .ok { Serializer.observe s with value := value2 }) := by
  simp only [Serializer.load, h, hfs]

theorem load_present_err (env : EnvSource) (s : Serializer) (val : String) (e : String)
    (h : env (Serializer.path s) = .present val)
    (hfs : from_str (if val = "" then "~" else val) = .error e) :
    Serializer.load env s = .err (.PackError e) := by
  simp only [Serializer.load, h, hfs]

/-- C7: Overlay checks are performed exactly at the non-record nodes: under a
fully absent environment the walk from a fresh Serializer succeeds with the
tree untouched and its tracker state is precisely the fold of one observation
per address of checkAddrs — which assigns one address per leaf node (scalar,
optional, sequence, map, tuple, enum-variant payload) and none to a record
node itself, whose fields are addressed individually. -/
theorem overlay_check_per_node (env : EnvSource) (pfx : String) (baseline : Value)
    (t : TVal)
    (h : ∀ a ∈ checkAddrs t [to_uppercase pfx], env a = .notPresent) :
    walk env t (Serializer.new pfx baseline) =
      .ok (withTracker (Serializer.new pfx baseline)
        (observeAll ([], []) (checkAddrs t [to_uppercase pfx]))) ∧
    (∀ (enc : Value) (cur : List String), checkAddrs (.leaf enc) cur = [join_with "_" cur]) ∧
    (∀ (fields : List (String × TVal)) (cur : List String),
      checkAddrs (.record fields) cur = checkAddrsFields fields cur) := by
  exact ⟨walk_absent env t (Serializer.new pfx baseline) h,
    fun enc cur => rfl, fun fields cur => rfl⟩

/-- C7 witness: the walk of tC2 under an empty environment records exactly
its three leaf addresses. -/
theorem overlay_check_per_node_witness :
    walk (fun _ => VarResult.notPresent) tC2 (Serializer.new "pfx" .null) =
      .ok (withTracker (Serializer.new "pfx" .null)
        (observeAll ([], []) (checkAddrs tC2 [to_uppercase "pfx"]))) ∧
    (∀ (enc : Value) (cur : List String), checkAddrs (.leaf enc) cur = [join_with "_" cur]) ∧
    (∀ (fields : List (String × TVal)) (cur : List String),
      checkAddrs (.record fields) cur = checkAddrsFields fields cur) :=
  overlay_check_per_node (fun _ => VarResult.notPresent) "pfx" .null tC2 (fun _ _ => rfl)

/-- C8: Ambiguity detection is call-scoped and non-fatal: the tracker state
never influences the patched tree, the path stack or the ok/err/panic outcome
of the walk; a repeated address only appends a warning while the visited set
is unchanged and the overlay is still attempted; and two unrelated far-apart
fields of tDup that normalize to the same address make the second occurrence
emit the warning within one call. -/
theorem ambiguity_nonfatal (env : EnvSource) (t : TVal) (s1 s2 : Serializer)
    (hv : s1.value = s2.value) (hc : s1.curpath = s2.curpath) :
    projRes (walk env t s1) = projRes (walk env t s2) ∧
    (∀ s s3 : Serializer, Serializer.path s ∈ s.paths →
      Serializer.load env s = .ok s3 →
      s3.warnings = s.warnings ++ [Serializer.path s] ∧ s3.paths = s.paths) ∧
    walk (fun _ => .notPresent) tDup (Serializer.new "pfx" (encode tDup)) =
      .ok { curpath := ["PFX"], paths := ["PFX_A_B_C"], value := encode tDup,
            warnings := ["PFX_A_B_C"] } := by
  refine ⟨walk_proj_congr env t s1 s2 hv hc, ?_, rfl⟩
  intro s s3 hmem hload
  have hobs : Serializer.observe s =
      { s with warnings := s.warnings ++ [Serializer.path s] } := by
    unfold Serializer.observe
    rw [if_pos hmem]
  cases henv : env (Serializer.path s) with
  | notPresent =>
      rw [load_absent env s henv, hobs] at hload
      injection hload with h3
      rw [← h3]
      exact ⟨rfl, rfl⟩
  | failed e =>
      rw [load_failed env s e henv] at hload
      exact WalkRes.noConfusion hload
  | present val =>
      cases hfs : from_str (if val = "" then "~" else val) with
      | error e =>
          rw [load_present_err env s val e henv hfs] at hload
          exact WalkRes.noConfusion hload
      | ok frag =>
          rw [load_present_ok env s val frag henv hfs] at hload
          cases hfu : find_and_update (Serializer.observe s).value
              ((Serializer.observe s).curpath.headD "")
              (Serializer.path (Serializer.observe s)) frag with
          | none =>
              rw [hfu] at hload
              exact WalkRes.noConfusion hload
          | some r =>
              cases r with
              | mk v2 b =>
                  rw [hfu] at hload
                  injection hload with h3
                  rw [← h3, hobs]
                  exact ⟨rfl, rfl⟩

/-- C8 witness: at two Serializer states differing only in the visited set,
over the nested record tA and its override environment. -/
theorem ambiguity_nonfatal_witness :
    projRes (walk envC3 tA
        { Serializer.new "pfx" (encode tA) with paths := ["PFX", "X"] }) =
      projRes (walk envC3 tA (Serializer.new "pfx" (encode tA))) ∧
    (∀ s s3 : Serializer, Serializer.path s ∈ s.paths →
      Serializer.load envC3 s = .ok s3 →
      s3.warnings = s.warnings ++ [Serializer.path s] ∧ s3.paths = s.paths) ∧
    walk (fun _ => .notPresent) tDup (Serializer.new "pfx" (encode tDup)) =
      .ok { curpath := ["PFX"], paths := ["PFX_A_B_C"], value := encode tDup,
            warnings := ["PFX_A_B_C"] } :=
  ambiguity_nonfatal envC3 tA
    { Serializer.new "pfx" (encode tA) with paths := ["PFX", "X"] }
    (Serializer.new "pfx" (encode tA)) rfl rfl

/-- C9: Non-string mapping keys are an internal-invariant violation: key
conversion upper-cases every string key, a non-string key takes the
unreachable branch (modelled as none, a panic rather than a recoverable
error), and under the data-model contract that every mapping key is a string
the patcher never reaches that branch. -/
theorem nonstring_keys_internal (v : Value) (cur target : String) (nv : Value)
    (h : strKeys v = true) :
    (∀ ks : String, to_key_str (.str ks) = some (to_uppercase ks)) ∧
    (∀ k : Value, (∀ ks : String, k ≠ .str ks) → to_key_str k = none) ∧
    (find_and_update v cur target nv).isSome = true := by
  refine ⟨fun ks => rfl, ?_, ?_⟩
  · intro k hk
    cases k with
    | null => rfl
    | bool b => rfl
    | number n => rfl
    | str ks => exact absurd rfl (hk ks)
    | seqv es => rfl
    | mapping ms => rfl
  · rw [fu_eq_spec v cur target nv h]
    rfl

/-- C9 witness: on the string-keyed mapping vC4. -/
theorem nonstring_keys_internal_witness :
    (∀ ks : String, to_key_str (.str ks) = some (to_uppercase ks)) ∧
    (∀ k : Value, (∀ ks : String, k ≠ .str ks) → to_key_str k = none) ∧
    (find_and_update vC4 "P" "Q" .null).isSome = true :=
  nonstring_keys_internal vC4 "P" "Q" .null rfl

theorem fu_self (v : Value) (a : String) (nv : Value) :
    find_and_update v a a nv = some (nv, true) := by
  cases v <;> simp [find_and_update]

/-- C10: Bare-prefix addressing of a non-record top-level value: a non-record
value gets its single overlay check at the upper-cased prefix alone, and a
present variable of that exact name replaces the entire value, because the
patcher's root comparison already matches at the tree root. -/
theorem bare_prefix_override (env : EnvSource) (pfx txt : String) (enc frag : Value)
    (henv : env (to_uppercase pfx) = .present txt)
    (hne : txt ≠ "")
    (hparse : from_str txt = .ok frag) :
    load env pfx (.leaf enc) = .ok (.leaf frag) ∧
    (∀ v : Value, find_and_update v (to_uppercase pfx) (to_uppercase pfx) frag =
      some (frag, true)) := by
  constructor
  · have hpath : Serializer.path (Serializer.new pfx (encode (.leaf enc))) =
        to_uppercase pfx := rfl
    unfold load
    rw [walk, load_present_ok env (Serializer.new pfx (encode (.leaf enc))) txt frag
      (by rw [hpath]; exact henv) (by rw [if_neg hne]; exact hparse)]
    rw [path_observe, hpath]
    have hoc : (Serializer.observe (Serializer.new pfx (encode (.leaf enc)))).curpath.headD ""
        = to_uppercase pfx := by
      rw [observe_curpath]
      rfl
    rw [hoc, fu_self]
    rfl
  · intro v
    exact fu_self v (to_uppercase pfx) frag

/-- C10 witness: a bare scalar loaded under prefix p with P=42 becomes 42. -/
theorem bare_prefix_override_witness :
    load envP "p" (.leaf (.number 0)) = .ok (.leaf (.number 42)) ∧
    (∀ v : Value, find_and_update v (to_uppercase "p") (to_uppercase "p") (.number 42) =
      some (.number 42, true)) :=
  bare_prefix_override envP "p" "42" (.number 0) (.number 42) rfl (by decide) rfl
